import Mathlib

/-!
Shallow embedding of the alicloud-sls-log client SDK (TypeScript) in Lean 4.

The embedding follows `src/request.ts` (the fetch-based request builder:
case-insensitive header lookup in `sign`, GET-only query resource,
lowercased canonicalized header names) and `src/client.ts`.

JavaScript records (`Record<string, string>`) are modelled as insertion-ordered
association lists with distinct keys; `Array.prototype.sort()` on strings is
modelled by lexicographic sorting with `List.insertionSort`; JS string
operations (`toLowerCase`, `trim`, `startsWith`) map to their Lean
counterparts (ASCII-faithful).  The crypto primitives used via CryptoJS
(`MD5`, `HmacSHA1`, `Base64`) are implemented concretely below so that every
definition is executable.
-/

namespace SLS

/-- 2^32, the modulus for 32-bit machine arithmetic. -/
def m32 : Nat := 4294967296

/-- Bitwise complement within 32 bits. -/
def mask32not (x : Nat) : Nat := 4294967295 ^^^ x

/-- Left rotation of a 32-bit word. -/
def rotl32 (x n : Nat) : Nat := ((x <<< n) ||| (x >>> (32 - n))) &&& 4294967295

/-- Split a list into chunks of `n` elements (last chunk may be shorter). -/
def chunksOf (n : Nat) (l : List Nat) : List (List Nat) :=
  if h : l = [] ∨ n = 0 then [] else l.take n :: chunksOf n (l.drop n)
termination_by l.length
decreasing_by
  push_neg at h
  have hl : 0 < l.length := List.length_pos.mpr h.1
  simp only [List.length_drop]
  omega

/-- UTF-8 encoding of a single Unicode code point. -/
def utf8EncodeCodePoint (c : Nat) : List Nat :=
  if c < 0x80 then [c]
  else if c < 0x800 then [0xC0 ||| (c >>> 6), 0x80 ||| (c &&& 0x3F)]
  else if c < 0x10000 then
    [0xE0 ||| (c >>> 12), 0x80 ||| ((c >>> 6) &&& 0x3F), 0x80 ||| (c &&& 0x3F)]
  else
    [0xF0 ||| (c >>> 18), 0x80 ||| ((c >>> 12) &&& 0x3F),
     0x80 ||| ((c >>> 6) &&& 0x3F), 0x80 ||| (c &&& 0x3F)]

/-- UTF-8 bytes of a string (CryptoJS parses string inputs as UTF-8). -/
def utf8Bytes (s : String) : List Nat :=
  s.data.foldr (fun c acc => utf8EncodeCodePoint c.toNat ++ acc) []

/-- Uppercase hex digit for a value below 16. -/
def hexDigitUpper (n : Nat) : Char :=
  if n < 10 then Char.ofNat (48 + n) else Char.ofNat (55 + n)

/-- Lowercase hex digit for a value below 16. -/
def hexDigitLower (n : Nat) : Char :=
  if n < 10 then Char.ofNat (48 + n) else Char.ofNat (87 + n)

/-- Uppercase hex rendering of a byte list. -/
def hexUpper (bs : List Nat) : String :=
  String.join (bs.map fun b => String.mk [hexDigitUpper (b / 16 % 16), hexDigitUpper (b % 16)])

/-- Lowercase hex rendering of a byte list. -/
def hexLower (bs : List Nat) : String :=
  String.join (bs.map fun b => String.mk [hexDigitLower (b / 16 % 16), hexDigitLower (b % 16)])

/-- The standard base64 alphabet. -/
def base64Alphabet : List Char :=
  "ABCDEFGHIJKLMNOPQRSTUVWXYZabcdefghijklmnopqrstuvwxyz0123456789+/".data

/-- Character of the base64 alphabet at index `n` (n < 64). -/
def b64Char (n : Nat) : Char := base64Alphabet.getD n 'A'

/-- Standard base64 encoding with padding, as produced by CryptoJS.enc.Base64. -/
def base64Encode (bs : List Nat) : String :=
  String.join ((chunksOf 3 bs).map fun g =>
    match g with
    | [a] => String.mk [b64Char (a >>> 2), b64Char ((a &&& 3) <<< 4)] ++ "=="
    | [a, b] =>
        String.mk [b64Char (a >>> 2), b64Char (((a &&& 3) <<< 4) ||| (b >>> 4)),
          b64Char ((b &&& 15) <<< 2)] ++ "="
    | [a, b, c] =>
        String.mk [b64Char (a >>> 2), b64Char (((a &&& 3) <<< 4) ||| (b >>> 4)),
          b64Char (((b &&& 15) <<< 2) ||| (c >>> 6)), b64Char (c &&& 63)]
    | _ => "")

/-- Little-endian 32-bit word from four bytes. -/
def leWord : List Nat → Nat
  | [a, b, c, d] => a ||| (b <<< 8) ||| (c <<< 16) ||| (d <<< 24)
  | _ => 0

/-- Big-endian 32-bit word from four bytes. -/
def beWord : List Nat → Nat
  | [a, b, c, d] => (a <<< 24) ||| (b <<< 16) ||| (c <<< 8) ||| d
  | _ => 0

/-- Little-endian bytes of a 32-bit word. -/
def leBytes (w : Nat) : List Nat :=
  [w &&& 255, (w >>> 8) &&& 255, (w >>> 16) &&& 255, (w >>> 24) &&& 255]

/-- Big-endian bytes of a 32-bit word. -/
def beBytes (w : Nat) : List Nat :=
  [(w >>> 24) &&& 255, (w >>> 16) &&& 255, (w >>> 8) &&& 255, w &&& 255]

/-- Merkle–Damgård padding: 0x80, zeros to 56 mod 64, then the 8-byte bit length
(little-endian for MD5). -/
def md5Pad (msg : List Nat) : List Nat :=
  msg ++ [0x80] ++ List.replicate ((119 - msg.length % 64) % 64) 0
    ++ (List.range 8).map (fun i => ((msg.length * 8) >>> (8 * i)) &&& 255)

/-- Same padding with the bit length big-endian, for SHA-1. -/
def sha1Pad (msg : List Nat) : List Nat :=
  msg ++ [0x80] ++ List.replicate ((119 - msg.length % 64) % 64) 0
    ++ (List.range 8).map (fun i => ((msg.length * 8) >>> (8 * (7 - i))) &&& 255)

/-- The 64 MD5 round constants (floor(|sin(i+1)| * 2^32)). -/
def md5K : List Nat :=
  [0xd76aa478, 0xe8c7b756, 0x242070db, 0xc1bdceee,
   0xf57c0faf, 0x4787c62a, 0xa8304613, 0xfd469501,
   0x698098d8, 0x8b44f7af, 0xffff5bb1, 0x895cd7be,
   0x6b901122, 0xfd987193, 0xa679438e, 0x49b40821,
   0xf61e2562, 0xc040b340, 0x265e5a51, 0xe9b6c7aa,
   0xd62f105d, 0x02441453, 0xd8a1e681, 0xe7d3fbc8,
   0x21e1cde6, 0xc33707d6, 0xf4d50d87, 0x455a14ed,
   0xa9e3e905, 0xfcefa3f8, 0x676f02d9, 0x8d2a4c8a,
   0xfffa3942, 0x8771f681, 0x6d9d6122, 0xfde5380c,
   0xa4beea44, 0x4bdecfa9, 0xf6bb4b60, 0xbebfbc70,
   0x289b7ec6, 0xeaa127fa, 0xd4ef3085, 0x04881d05,
   0xd9d4d039, 0xe6db99e5, 0x1fa27cf8, 0xc4ac5665,
   0xf4292244, 0x432aff97, 0xab9423a7, 0xfc93a039,
   0x655b59c3, 0x8f0ccc92, 0xffeff47d, 0x85845dd1,
   0x6fa87e4f, 0xfe2ce6e0, 0xa3014314, 0x4e0811a1,
   0xf7537e82, 0xbd3af235, 0x2ad7d2bb, 0xeb86d391]

/-- The 64 MD5 per-round left-rotation amounts. -/
def md5S : List Nat :=
  [7, 12, 17, 22, 7, 12, 17, 22, 7, 12, 17, 22, 7, 12, 17, 22,
   5, 9, 14, 20, 5, 9, 14, 20, 5, 9, 14, 20, 5, 9, 14, 20,
   4, 11, 16, 23, 4, 11, 16, 23, 4, 11, 16, 23, 4, 11, 16, 23,
   6, 10, 15, 21, 6, 10, 15, 21, 6, 10, 15, 21, 6, 10, 15, 21]

/-- One MD5 round on state (A,B,C,D) with message words `M`. -/
def md5Round (M : List Nat) (st : Nat × Nat × Nat × Nat) (i : Nat) :
    Nat × Nat × Nat × Nat :=
  let A := st.1
  let B := st.2.1
  let C := st.2.2.1
  let D := st.2.2.2
  let fg : Nat × Nat :=
    if i < 16 then ((B &&& C) ||| (mask32not B &&& D), i)
    else if i < 32 then ((D &&& B) ||| (mask32not D &&& C), (5 * i + 1) % 16)
    else if i < 48 then (B ^^^ C ^^^ D, (3 * i + 5) % 16)
    else (C ^^^ (B ||| mask32not D), (7 * i) % 16)
  let F := (fg.1 + A + md5K.getD i 0 + M.getD fg.2 0) % m32
  (D, (B + rotl32 F (md5S.getD i 0)) % m32, B, C)

/-- Process one 64-byte MD5 chunk. -/
def md5Chunk (st : Nat × Nat × Nat × Nat) (chunk : List Nat) :
    Nat × Nat × Nat × Nat :=
  let M := (chunksOf 4 chunk).map leWord
  let r := (List.range 64).foldl (md5Round M) st
  ((st.1 + r.1) % m32, (st.2.1 + r.2.1) % m32,
   (st.2.2.1 + r.2.2.1) % m32, (st.2.2.2 + r.2.2.2) % m32)

/-- MD5 digest (16 bytes) of a byte list. -/
def md5 (msg : List Nat) : List Nat :=
  let st := (chunksOf 64 (md5Pad msg)).foldl md5Chunk
    (0x67452301, 0xefcdab89, 0x98badcfe, 0x10325476)
  leBytes st.1 ++ leBytes st.2.1 ++ leBytes st.2.2.1 ++ leBytes st.2.2.2

/-- SHA-1 message schedule: the 80 expanded words of one chunk. -/
def sha1Schedule (M : List Nat) : List Nat :=
  let rev := (List.range 64).foldl
    (fun acc _ =>
      rotl32 ((acc.getD 2 0) ^^^ (acc.getD 7 0) ^^^ (acc.getD 13 0) ^^^ (acc.getD 15 0)) 1
        :: acc)
    M.reverse
  rev.reverse

/-- One SHA-1 round on state (a,b,c,d,e) with schedule `W`. -/
def sha1Round (W : List Nat) (st : Nat × Nat × Nat × Nat × Nat) (t : Nat) :
    Nat × Nat × Nat × Nat × Nat :=
  let a := st.1
  let b := st.2.1
  let c := st.2.2.1
  let d := st.2.2.2.1
  let e := st.2.2.2.2
  let fk : Nat × Nat :=
    if t < 20 then ((b &&& c) ||| (mask32not b &&& d), 0x5a827999)
    else if t < 40 then (b ^^^ c ^^^ d, 0x6ed9eba1)
    else if t < 60 then ((b &&& c) ||| (b &&& d) ||| (c &&& d), 0x8f1bbcdc)
    else (b ^^^ c ^^^ d, 0xca62c1d6)
  let tmp := (rotl32 a 5 + fk.1 + e + fk.2 + W.getD t 0) % m32
  (tmp, a, rotl32 b 30, c, d)

/-- Process one 64-byte SHA-1 chunk. -/
def sha1Chunk (st : Nat × Nat × Nat × Nat × Nat) (chunk : List Nat) :
    Nat × Nat × Nat × Nat × Nat :=
  let W := sha1Schedule ((chunksOf 4 chunk).map beWord)
  let r := (List.range 80).foldl (sha1Round W) st
  ((st.1 + r.1) % m32, (st.2.1 + r.2.1) % m32, (st.2.2.1 + r.2.2.1) % m32,
   (st.2.2.2.1 + r.2.2.2.1) % m32, (st.2.2.2.2 + r.2.2.2.2) % m32)

/-- SHA-1 digest (20 bytes) of a byte list. -/
def sha1 (msg : List Nat) : List Nat :=
  let st := (chunksOf 64 (sha1Pad msg)).foldl sha1Chunk
    (0x67452301, 0xefcdab89, 0x98badcfe, 0x10325476, 0xc3d2e1f0)
  beBytes st.1 ++ beBytes st.2.1 ++ beBytes st.2.2.1
    ++ beBytes st.2.2.2.1 ++ beBytes st.2.2.2.2

/-- HMAC-SHA1 (RFC 2104) over byte lists. -/
def hmacSha1 (key msg : List Nat) : List Nat :=
  let k0 := if key.length > 64 then sha1 key else key
  let k1 := k0 ++ List.replicate (64 - k0.length) 0
  sha1 ((k1.map (· ^^^ 0x5c)) ++ sha1 ((k1.map (· ^^^ 0x36)) ++ msg))

/-- HMAC-SHA1 of UTF-8 strings, base64-encoded — the CryptoJS pipeline
`CryptoJS.HmacSHA1(msg, key).toString(CryptoJS.enc.Base64)`. -/
def hmacSha1Base64 (key msg : String) : String :=
  base64Encode (hmacSha1 (utf8Bytes key) (utf8Bytes msg))

/-! ## JS string ordering

`Array.prototype.sort()` without a comparator sorts strings by code units.
We model it with an executable lexicographic comparison and
`List.insertionSort`. -/

/-- Lexicographic less-or-equal on character lists by code point. -/
def charListLe : List Char → List Char → Bool
  | [], _ => true
  | _ :: _, [] => false
  | a :: as, b :: bs =>
    if a.toNat < b.toNat then true
    else if b.toNat < a.toNat then false
    else charListLe as bs

/-- The JS string order used by `Array.prototype.sort()`. -/
def jsLe (a b : String) : Prop := charListLe a.data b.data = true

instance : DecidableRel jsLe := fun a b => by
  unfold jsLe; infer_instance

theorem charListLe_total : ∀ as bs, charListLe as bs = true ∨ charListLe bs as = true
  | [], _ => by left; rfl
  | _ :: _, [] => by right; rfl
  | a :: as, b :: bs => by
    by_cases hab : a.toNat < b.toNat
    · left; simp [charListLe, hab]
    · by_cases hba : b.toNat < a.toNat
      · right; simp [charListLe, hba]
      · have := charListLe_total as bs
        rcases this with h | h
        · left; simp [charListLe, hab, hba, h]
        · right; simp [charListLe, hab, hba, h]

theorem charListLe_trans : ∀ as bs cs, charListLe as bs = true → charListLe bs cs = true →
    charListLe as cs = true
  | [], _, _ => by intro _ _; rfl
  | a :: as, [], _ => by intro h _; simp [charListLe] at h
  | _ :: _, _ :: _, [] => by intro _ h; simp [charListLe] at h
  | a :: as, b :: bs, c :: cs => by
    intro h1 h2
    simp only [charListLe] at h1 h2 ⊢
    split_ifs at h1 h2 ⊢ with g1 g2 g3 g4 g5 g6 <;> try omega
    all_goals try rfl
    all_goals try simp at h1 h2
    exact charListLe_trans as bs cs h1 h2

theorem charListLe_antisymm : ∀ as bs, charListLe as bs = true → charListLe bs as = true →
    as = bs
  | [], [] => by intro _ _; rfl
  | [], _ :: _ => by intro _ h; simp [charListLe] at h
  | _ :: _, [] => by intro h _; simp [charListLe] at h
  | a :: as, b :: bs => by
    intro h1 h2
    simp only [charListLe] at h1 h2
    split_ifs at h1 h2 with g1 g2 g3 g4 <;> try omega
    all_goals try simp at h1 h2
    have hn : a.toNat = b.toNat := by omega
    have hc : a = b := Char.ext (UInt32.ext hn)
    have := charListLe_antisymm as bs h1 h2
    simp [hc, this]

instance : IsTotal String jsLe :=
  ⟨fun a b => charListLe_total a.data b.data⟩

instance : IsTrans String jsLe :=
  ⟨fun a b c => charListLe_trans a.data b.data c.data⟩

instance : IsAntisymm String jsLe :=
  ⟨fun a b h1 h2 => by
    have h3 := charListLe_antisymm a.data b.data h1 h2
    cases a; cases b; exact congrArg String.mk h3⟩

/-! ## JS string primitives

Executable models of `toLowerCase`, `startsWith` and `trim` (faithful on the
ASCII header/key material this code handles). -/

/-- Lowercasing of one character (`String.prototype.toLowerCase`, ASCII). -/
def charToLower (c : Char) : Char :=
  if 65 ≤ c.toNat ∧ c.toNat ≤ 90 then Char.ofNat (c.toNat + 32) else c

/-- Lowercasing of a string. -/
def lowerStr (s : String) : String := String.mk (s.data.map charToLower)

/-- Code-unit prefix test on character lists. -/
def isPrefixOfCharList : List Char → List Char → Bool
  | [], _ => true
  | _ :: _, [] => false
  | a :: as, b :: bs => a == b && isPrefixOfCharList as bs

/-- `String.prototype.startsWith`. -/
def strStartsWith (s p : String) : Bool := isPrefixOfCharList p.data s.data

/-- Whitespace test for `trim`. -/
def isSpaceChar (c : Char) : Bool := c == ' ' || c == '\t' || c == '\n' || c == '\r'

/-- `String.prototype.trim`: strip leading and trailing whitespace. -/
def trimStr (s : String) : String :=
  String.mk (((s.data.dropWhile isSpaceChar).reverse.dropWhile isSpaceChar).reverse)

/-! ## The data model of `request.ts` -/

/-- A JS `Record<string, string>`: insertion-ordered entries, keys distinct. -/
abbrev Headers : Type := List (String × String)

/-- JS record access `headers[key]` (exact key), defaulting to `""` for the
non-null-assertion use sites where the key is known present. -/
def hget (headers : Headers) (key : String) : String :=
  ((headers.find? (fun p => p.1 = key)).map Prod.snd).getD ""

/-- JS record lookup `headers[key]` as an option (missing key = `undefined`). -/
def hfind (headers : Headers) (key : String) : Option String :=
  (headers.find? (fun p => p.1 = key)).map Prod.snd

/-- JS assignment `headers[key] = value`: updates the entry in place when the
key exists, appends it otherwise. -/
def hset (headers : Headers) (key value : String) : Headers :=
  if headers.any (fun p => p.1 = key) then
    headers.map (fun p => if p.1 = key then (key, value) else p)
  else
    headers ++ [(key, value)]

/-- `Object.assign(base, extra)`: keys of `base` (values overridden by `extra`
where present, in `base` order) followed by the keys only in `extra`. -/
def assign (base extra : Headers) : Headers :=
  (base.map fun p => (p.1, (((extra.find? (fun q => q.1 = p.1)).map Prod.snd).getD p.2)))
    ++ extra.filter (fun q => ¬ base.any (fun p => p.1 = q.1))

/-- The `getHeader` closure in `Request.sign`: first entry whose key matches
case-insensitively, else the empty string (`v || ""` collapses to `v` for
strings since only `""` is falsy). -/
def getHeaderCI (headers : Headers) (key : String) : String :=
  match headers.find? (fun p => lowerStr p.1 = lowerStr key) with
  | some p => p.2
  | none => ""

/-- `getCanonicalizedHeaders` from `request.ts`: keys whose lowercased name
starts with `x-log-` or `x-acs-`, sorted (by the original key, as
`Array.sort` runs before the lowercasing `map`), rendered as
`lowercasedName:trimmedValue` joined by newlines, `""` when none match. -/
def getCanonicalizedHeaders (headers : Headers) : String :=
  let canonicalizedKeys :=
    List.insertionSort jsLe
      ((headers.map Prod.fst).filter
        (fun key => strStartsWith (lowerStr key) "x-log-" ||
          strStartsWith (lowerStr key) "x-acs-"))
  if canonicalizedKeys = [] then ""
  else
    String.intercalate "\n"
      (canonicalizedKeys.map fun key => lowerStr key ++ ":" ++ trimStr (hget headers key))

/-- A JS value appearing in a query record (`Record<string, any>`). -/
inductive JSVal where
  | undef : JSVal
  | str : String → JSVal
  | num : Int → JSVal
  | bool : Bool → JSVal
deriving DecidableEq

/-- `formatString` from `request.ts`: `undefined` renders as `""`, anything
else via JS `String(value)`. -/
def formatString : JSVal → String
  | .undef => ""
  | .str s => s
  | .num n => toString n
  | .bool b => if b then "true" else "false"

/-- A JS query record. -/
abbrev Queries : Type := List (String × JSVal)

/-- `queries[key]` (exact key; missing key = `undefined`). -/
def qget (queries : Queries) (key : String) : JSVal :=
  ((queries.find? (fun p => p.1 = key)).map Prod.snd).getD JSVal.undef

/-- `formatResource` from `request.ts`: the path, with query parameters sorted
lexicographically by key and rendered `key=formatString(value)` joined by `&`,
appended after `?` when the query record is present and non-empty. -/
def formatResource (path : String) (queries : Option Queries) : String :=
  match queries with
  | none => path
  | some q =>
    if q.map Prod.fst = [] then path
    else
      path ++ "?" ++ String.intercalate "&"
        ((List.insertionSort jsLe (q.map Prod.fst)).map fun key =>
          key ++ "=" ++ formatString (qget q key))

/-- The HTTP methods of `RequestOptions.method`. -/
inductive Method where
  | POST | GET | PUT | DELETE
deriving DecidableEq

/-- The method name string used in the sign string. -/
def Method.toStr : Method → String
  | .POST => "POST"
  | .GET => "GET"
  | .PUT => "PUT"
  | .DELETE => "DELETE"

/-- A per-client request-option record (only the field the embedded code
reads). -/
structure SafeRequestOptions where
  timeout : Option Nat
deriving DecidableEq

/-- `RequestConfig` from `type.ts` (`stsToken?` is optional). -/
structure RequestConfig where
  endpoint : String
  accessKeyID : String
  accessKeySecret : String
  stsToken : Option String
  globalRequestOptions : Option SafeRequestOptions
deriving DecidableEq

/-- `Request.updateCredential`: assigns the three credential fields (an
omitted `stsToken` argument stores `undefined`, i.e. `none`). -/
def updateCredential (config : RequestConfig) (accessKeyID accessKeySecret : String)
    (stsToken : Option String) : RequestConfig :=
  { config with
    accessKeyID := accessKeyID
    accessKeySecret := accessKeySecret
    stsToken := stsToken }

/-- `Request.sign`: builds the six-field sign string and returns
`LOG <accessKeyID>:<base64(HMAC-SHA1(signString, secret))>`. -/
def sign (config : RequestConfig) (method resource : String) (headers : Headers) : String :=
  let contentMD5 := getHeaderCI headers "content-md5"
  let contentType := getHeaderCI headers "content-type"
  let date := getHeaderCI headers "date"
  let canonicalizedHeaders := getCanonicalizedHeaders headers
  let signString := method ++ "\n" ++ contentMD5 ++ "\n" ++ contentType ++ "\n"
    ++ date ++ "\n" ++ canonicalizedHeaders ++ "\n" ++ resource
  let signature := hmacSha1Base64 config.accessKeySecret signString
  "LOG " ++ config.accessKeyID ++ ":" ++ signature

/-- `RequestOptions` from `request.ts` (the fields feeding header
construction; a body is a byte list). -/
structure RequestOptions where
  method : Method
  path : String
  queries : Option Queries
  body : Option (List Nat)
  headers : Option Headers

/-- Truthiness of a JS `string | undefined`: only `undefined` and `""` are
falsy. -/
def truthy : Option String → Bool
  | some s => s ≠ ""
  | none => false

/-- The canonicalized resource `Request.do` passes to `sign`: the query
string participates only for `GET` with a (truthy) query record present. -/
def resourceFor (options : RequestOptions) : String :=
  if options.method = .GET ∧ options.queries.isSome then
    formatResource options.path options.queries
  else
    options.path

/-- The default headers built at the start of `Request.do` (`now` is the
`new Date().toUTCString()` value). -/
def defaultHeaders (now : String) : Headers :=
  [("content-type", "application/json"),
   ("date", now),
   ("x-log-apiversion", "0.6.0"),
   ("x-log-signaturemethod", "hmac-sha1")]

/-- The header record of `Request.do` just before the `authorization`
assignment — the headers present at sign time: defaults merged with the
caller's, then the session token (when truthy), then the body-integrity
headers (when a body is present). -/
def signTimeHeaders (config : RequestConfig) (now : String) (options : RequestOptions) :
    Headers :=
  let h0 := assign (defaultHeaders now) (options.headers.getD [])
  let h1 := if truthy config.stsToken
    then hset h0 "x-acs-security-token" (config.stsToken.getD "")
    else h0
  match options.body with
  | some body =>
      hset (hset h1 "content-length" (toString body.length))
        "content-md5" (hexUpper (md5 body))
  | none => h1

/-- The full outgoing header record of `Request.do`: the sign-time headers
plus the `authorization` header computed over exactly them. -/
def doBuildHeaders (config : RequestConfig) (now : String) (options : RequestOptions) :
    Headers :=
  let h := signTimeHeaders config now options
  hset h "authorization" (sign config options.method.toStr (resourceFor options) h)

/-! ## Response handling (`Request.do`, `AliCloudSLSLogError`) -/

/-- The data carried by an `AliCloudSLSLogError` (its `name` is derived). -/
structure AliCloudSLSLogError where
  message : String
  code : String
  requestid : Option String
deriving DecidableEq

/-- The derived `name` field: `` `${code}Error` ``. -/
def AliCloudSLSLogError.name (e : AliCloudSLSLogError) : String :=
  e.code ++ "Error"

/-- The `Error` object shape of a service error body. -/
structure ErrorObj where
  Message : String
  Code : String
  RequestId : Option String
deriving DecidableEq

/-- The observable shape of a parsed JSON response body. -/
structure RespBody where
  errorCode : Option String
  errorMessage : Option String
  Error : Option ErrorObj
deriving DecidableEq

/-- `fetch` response headers lookup (`Headers.get` is case-insensitive and
returns `null` when absent). -/
def respHeaderGet (headers : List (String × String)) (key : String) : Option String :=
  (headers.find? (fun p => lowerStr p.1 = lowerStr key)).map Prod.snd

/-- What `Request.do` produces from a response. -/
inductive DoResult where
  | raw : DoResult
  | parsed : RespBody → DoResult
deriving DecidableEq

instance {ε α : Type} [DecidableEq ε] [DecidableEq α] : DecidableEq (Except ε α)
  | .error x, .error y =>
      if h : x = y then isTrue (by rw [h]) else isFalse (by simp [h])
  | .error _, .ok _ => isFalse (by simp)
  | .ok _, .error _ => isFalse (by simp)
  | .ok x, .ok y =>
      if h : x = y then isTrue (by rw [h]) else isFalse (by simp [h])

/-- The response-interpretation tail of `Request.do`: non-JSON content types
pass through raw; a truthy `errorCode`/`errorMessage` pair throws with the
`x-log-requestid` response header; an `Error` object throws with its fields;
anything else is returned parsed. -/
def handleResponse (contentType : String) (respHeaders : List (String × String))
    (body : RespBody) : Except AliCloudSLSLogError DoResult :=
  if ¬ strStartsWith contentType "application/json" then
    .ok .raw
  else if truthy body.errorCode ∧ truthy body.errorMessage then
    .error ⟨body.errorMessage.getD "", body.errorCode.getD "",
      respHeaderGet respHeaders "x-log-requestid"⟩
  else
    match body.Error with
    | some e => .error ⟨e.Message, e.Code, e.RequestId⟩
    | none => .ok (.parsed body)

/-! ## `client.ts`: timestamps and log encoding -/

/-- Bit length of a natural number, computed with structural (fuel-based)
recursion so that the kernel can evaluate it. -/
def bitLenFuel : Nat → Nat → Nat
  | 0, _ => 0
  | fuel + 1, n => if n = 0 then 0 else bitLenFuel fuel (n / 2) + 1

/-- Bit length of a natural number (`bitLen 0 = 0`, `bitLen 1 = 1`, ...). -/
def bitLen (n : Nat) : Nat := bitLenFuel n n

/-- Round a nonnegative integer to the nearest IEEE-754 binary64 value,
ties to even: integers with at most 53 significant bits are exact, larger
ones are rounded at 53-bit precision. -/
def roundB64 (n : Nat) : Nat :=
  if bitLen n ≤ 53 then n
  else
    let s := bitLen n - 53
    let q := n >>> s
    let r := n % (1 <<< s)
    let half := 1 <<< (s - 1)
    if r < half then q <<< s
    else if half < r then (q + 1) <<< s
    else (if q % 2 = 0 then q else q + 1) <<< s

/-- `splitTimestamp` from `client.ts`: `timestamp || Date.now()` (so `0` and
`undefined` fall back to `now`), interpreted as seconds below `10^12` and
as milliseconds at or above it.  JS numbers are IEEE-754 binary64, so
`time * 1000 * 1000` performs two correctly-rounded multiplications —
modelled by `roundB64` applied after each exact integer product; the
`Math.floor` is the identity on the integer-valued rounded result, and `%`
computes the exact remainder, which is below `10^9 < 2^53` and hence exact.
`Math.floor(time / 1000)` is modelled by exact floor division, which agrees
with the JS floor of the correctly-rounded quotient for every
`time < 2^53` (every such integer is representable, and the quotient's
half-ulp, at most `2^-10`, is smaller than the `10^-3` gap separating
`time / 1000` from the next integer). -/
def splitTimestamp (timestamp : Option Nat) (now : Nat) : Nat × Nat :=
  let time := match timestamp with
    | some t => if t = 0 then now else t
    | none => now
  if time < 1000000000000 then (time, 0)
  else (time / 1000, roundB64 (roundB64 (time * 1000) * 1000) % 1000000000)

/-- `LogEntity` from `type.ts`. -/
structure LogEntity where
  content : List (String × JSVal)
  timestamp : Option Nat
  timestampNsPart : Option Nat

/-- One encoded `sls.Log` message as built in `putLogs`. -/
structure ProtoLog where
  Time : Nat
  TimeNs : Nat
  Contents : List (String × JSVal)
deriving DecidableEq

/-- The per-log mapping inside `putLogs`: `TimeNs` is
`log.timestampNsPart || nanoseconds` (so `0` falls back to the derived
nanoseconds), contents keep insertion order. -/
def encodeLogEntity (log : LogEntity) (now : Nat) : ProtoLog :=
  let sn := splitTimestamp log.timestamp now
  { Time := sn.1
    TimeNs := match log.timestampNsPart with
      | some n => if n = 0 then sn.2 else n
      | none => sn.2
    Contents := log.content }

/-- The `RequestOptions` built by `AliCloudSLSLog.putLogs` for an encoded
body. -/
def putLogsOptions (logstoreName : String) (body : List Nat) : RequestOptions :=
  { method := .POST
    path := "/logstores/" ++ logstoreName ++ "/shards/lb"
    queries := none
    body := some body
    headers := some [("x-log-bodyrawsize", toString body.length),
                     ("content-type", "application/x-protobuf")] }

/-- The `RequestOptions` built by `AliCloudSLSLog.getLogs` for a query
record. -/
def getLogsOptions (logstoreName : String) (queries : Queries) : RequestOptions :=
  { method := .GET
    path := "/logstores/" ++ logstoreName
    queries := some queries
    body := none
    headers := none }

/-! ## Statements of the specification, in its own words

These definitions transcribe the spec's description of the algorithms (they
are compared against the source-derived definitions above). -/

/-- The spec's case-insensitive header lookup: index the mapping by
lowercased key and look the key up lowercased; a missing value is `""`. -/
def specLookupCI (headers : Headers) (key : String) : String :=
  (((headers.map (fun p => (lowerStr p.1, p.2))).find?
      (fun p => p.1 = lowerStr key)).map Prod.snd).getD ""

/-- The spec's canonicalized-headers algorithm: select headers whose
lowercased name has a signature prefix, lowercase the names, sort
lexicographically by (lowercased) name, join `name:trimmedValue` lines. -/
def specCanonicalizedHeaders (headers : Headers) : String :=
  let entries := (headers.map (fun p => (lowerStr p.1, p.2))).filter
    (fun p => strStartsWith p.1 "x-log-" || strStartsWith p.1 "x-acs-")
  String.intercalate "\n"
    ((List.insertionSort jsLe (entries.map Prod.fst)).map
      (fun k => k ++ ":" ++ trimStr (hget entries k)))

/-! ## Helper lemmas about the header-record operations -/

theorem find?_map_update_self {h : Headers} {k v : String}
    (hx : h.any (fun p => p.1 = k) = true) :
    (h.map (fun p => if p.1 = k then (k, v) else p)).find? (fun p => p.1 = k)
      = some (k, v) := by
  induction h with
  | nil => simp at hx
  | cons p t ih =>
    by_cases hp : p.1 = k
    · simp [hp]
    · have hx' : t.any (fun p => p.1 = k) = true := by simpa [hp] using hx
      simp [hp, ih hx']

theorem find?_map_update_ne {t : Headers} {k v k' : String} (hne : k' ≠ k) :
    ((t.map (fun p => if p.1 = k then (k, v) else p)).find?
        (fun p => p.1 = k')).map Prod.snd
      = (t.find? (fun p => p.1 = k')).map Prod.snd := by
  induction t with
  | nil => rfl
  | cons p t ih =>
    simp only [List.map_cons]
    by_cases hp : p.1 = k
    · rw [if_pos hp]
      rw [List.find?_cons_of_neg _ (by simp [Ne.symm hne])]
      rw [List.find?_cons_of_neg _ (by simp [hp]; exact Ne.symm hne)]
      exact ih
    · rw [if_neg hp]
      by_cases hp' : p.1 = k'
      · rw [List.find?_cons_of_pos _ (by simp [hp'])]
        rw [List.find?_cons_of_pos _ (by simp [hp'])]
      · rw [List.find?_cons_of_neg _ (by simp [hp'])]
        rw [List.find?_cons_of_neg _ (by simp [hp'])]
        exact ih

/-- Setting a key makes it present with the set value. -/
theorem hfind_hset_self (h : Headers) (k v : String) :
    hfind (hset h k v) k = some v := by
  unfold hset hfind
  by_cases hany : h.any (fun p => p.1 = k) = true
  · simp only [hany, if_true, find?_map_update_self hany]
    rfl
  · simp only [hany, if_false, Bool.false_eq_true]
    have hnone : h.find? (fun p => p.1 = k) = none := by
      rw [List.find?_eq_none]
      intro x hxm hx
      exact hany (List.any_eq_true.mpr ⟨x, hxm, hx⟩)
    simp [List.find?_append, hnone]

/-- Setting a key leaves every other key's value unchanged. -/
theorem hfind_hset_ne (h : Headers) (k v k' : String) (hne : k' ≠ k) :
    hfind (hset h k v) k' = hfind h k' := by
  unfold hset hfind
  by_cases hany : h.any (fun p => p.1 = k) = true
  · simp only [hany, if_true]
    exact find?_map_update_ne hne
  · simp only [hany, if_false, Bool.false_eq_true]
    have : ([((k, v))] : Headers).find? (fun p => p.1 = k') = none := by
      simp [List.find?, Ne.symm hne]
    simp [List.find?_append, this]

/-- Searching the overridden copy of `base` built by `Object.assign` agrees
with searching `base` when the update record lacks the key. -/
theorem find?_map_override (base extra : Headers) (k : String)
    (hex : extra.find? (fun q => q.1 = k) = none) :
    ((base.map (fun p =>
        (p.1, ((extra.find? (fun q => q.1 = p.1)).map Prod.snd).getD p.2))).find?
      (fun p => p.1 = k)).map Prod.snd
      = (base.find? (fun p => p.1 = k)).map Prod.snd := by
  induction base with
  | nil => rfl
  | cons p t ih =>
    simp only [List.map_cons]
    by_cases hp : p.1 = k
    · rw [List.find?_cons_of_pos _ (by simp [hp]), List.find?_cons_of_pos _ (by simp [hp])]
      simp only [hp, hex]
      rfl
    · rw [List.find?_cons_of_neg _ (by simp [hp]), List.find?_cons_of_neg _ (by simp [hp])]
      exact ih

/-- `Object.assign` does not affect keys absent from the update record. -/
theorem hfind_assign_of_not_mem (base extra : Headers) (k : String)
    (hx : ∀ q ∈ extra, ¬ q.1 = k) :
    hfind (assign base extra) k = hfind base k := by
  unfold assign hfind
  rw [List.find?_append]
  have hright : (extra.filter (fun q => ¬ base.any (fun p => p.1 = q.1))).find?
      (fun p => p.1 = k) = none := by
    rw [List.find?_eq_none]
    intro x hxm hxk
    exact hx x (List.mem_of_mem_filter hxm) (by simpa using hxk)
  rw [hright]
  have hex : extra.find? (fun q => q.1 = k) = none := by
    rw [List.find?_eq_none]
    intro x hxm hxk
    exact hx x hxm (by simpa using hxk)
  rw [Option.or_none]
  exact find?_map_override base extra k hex

/-- With permuted entries and distinct keys, exact-key search agrees. -/
theorem find?_key_perm (h₁ h₂ : Headers) (pm : h₁.Perm h₂)
    (nd : (h₁.map Prod.fst).Nodup) (k : String) :
    h₁.find? (fun p => p.1 = k) = h₂.find? (fun p => p.1 = k) := by
  rcases e1 : h₁.find? (fun p => p.1 = k) with _ | p
  · rw [e1, eq_comm, List.find?_eq_none]
    rw [List.find?_eq_none] at e1
    intro x hx
    exact e1 x (pm.mem_iff.mpr hx)
  · have hp : p.1 = k := by simpa using List.find?_some e1
    have hmem : p ∈ h₂ := pm.mem_iff.mp (List.mem_of_find?_eq_some e1)
    have hsome : (h₂.find? (fun p => p.1 = k)).isSome :=
      List.find?_isSome.mpr ⟨p, hmem, by simpa using hp⟩
    rcases e2 : h₂.find? (fun p => p.1 = k) with _ | q
    · rw [e2] at hsome; simp at hsome
    · have hq : q.1 = k := by simpa using List.find?_some e2
      have hqm : q ∈ h₁ := pm.mem_iff.mpr (List.mem_of_find?_eq_some e2)
      have : q = p :=
        List.inj_on_of_nodup_map nd hqm (List.mem_of_find?_eq_some e1) (by rw [hp, hq])
      rw [e1, e2, this]

/-- The source's `getHeader` closure and the spec's lowercased-index lookup
agree. -/
theorem getHeaderCI_eq_specLookupCI (h : Headers) (k : String) :
    getHeaderCI h k = specLookupCI h k := by
  unfold getHeaderCI specLookupCI
  rw [List.find?_map]
  rcases e : h.find? (fun p => lowerStr p.1 = lowerStr k) with _ | p
  · have : h.find? ((fun p : String × String => p.1 = lowerStr k) ∘
        (fun p : String × String => (lowerStr p.1, p.2))) = none := by
      rw [List.find?_eq_none] at e ⊢
      intro x hx
      simpa using e x hx
    rw [this, e]
    rfl
  · have : h.find? ((fun p : String × String => p.1 = lowerStr k) ∘
        (fun p : String × String => (lowerStr p.1, p.2))) = some p := by
      rw [← e]
      congr 1
    rw [this, e]
    rfl

/-- Six strings joined by newline. -/
theorem intercalate_six (a b c d e f : String) :
    String.intercalate "\n" [a, b, c, d, e, f]
      = a ++ "\n" ++ b ++ "\n" ++ c ++ "\n" ++ d ++ "\n" ++ e ++ "\n" ++ f := by
  simp [String.intercalate, String.intercalate.go, String.append_assoc]

/-! ## The claims -/

/-- C1: `sign` builds the sign string as exactly six fields joined by newline
— METHOD, content-md5, content-type, date, canonicalized-headers,
canonicalized-resource — where the content-md5, content-type and date values
are looked up in the header mapping case-insensitively and a missing value
contributes the empty string (separators are emitted even for empty fields),
and the signature embedded in the result is the HMAC-SHA1 of that string
under the secret, base64-encoded. -/
theorem c1_sign_string_structure (config : RequestConfig) (method resource : String)
    (headers : Headers) :
    sign config method resource headers =
      "LOG " ++ config.accessKeyID ++ ":" ++
        hmacSha1Base64 config.accessKeySecret
          (String.intercalate "\n"
            [method, specLookupCI headers "content-md5", specLookupCI headers "content-type",
             specLookupCI headers "date", getCanonicalizedHeaders headers, resource]) := by
  unfold sign
  rw [intercalate_six, ← getHeaderCI_eq_specLookupCI, ← getHeaderCI_eq_specLookupCI,
    ← getHeaderCI_eq_specLookupCI]

/-- C8: signing is deterministic — it depends only on the method, resource,
headers, access key secret and access key id, so any two invocations on
configurations agreeing on secret and id (whatever their endpoint or session
token) produce the same signature header value. -/
theorem c8_sign_deterministic (c1 c2 : RequestConfig) (method resource : String)
    (headers : Headers) (hsec : c1.accessKeySecret = c2.accessKeySecret)
    (hid : c1.accessKeyID = c2.accessKeyID) :
    sign c1 method resource headers = sign c2 method resource headers := by
  unfold sign
  rw [hsec, hid]

/-- Witness for C8 at concrete configurations differing in endpoint and
session token. -/
theorem c8_sign_deterministic_witness :
    (RequestConfig.mk "host-a" "id" "sec" none none).accessKeySecret
        = (RequestConfig.mk "host-b" "id" "sec" (some "tok") none).accessKeySecret ∧
    (RequestConfig.mk "host-a" "id" "sec" none none).accessKeyID
        = (RequestConfig.mk "host-b" "id" "sec" (some "tok") none).accessKeyID ∧
    sign (RequestConfig.mk "host-a" "id" "sec" none none) "GET" "/x" []
        = sign (RequestConfig.mk "host-b" "id" "sec" (some "tok") none) "GET" "/x" [] :=
  ⟨rfl, rfl, c8_sign_deterministic _ _ _ _ _ rfl rfl⟩

/-- `bitLenFuel` computes the bit length whenever it has enough fuel. -/
theorem bitLenFuel_le_iff : ∀ (fuel n k : Nat), n ≤ fuel →
    (bitLenFuel fuel n ≤ k ↔ n < 2 ^ k)
  | 0, n, k => by
    intro h
    have hn : n = 0 := Nat.le_zero.mp h
    subst hn
    simp only [bitLenFuel]
    exact iff_of_true (Nat.zero_le k) (pow_pos (by norm_num) k)
  | fuel + 1, n, k => by
    intro h
    by_cases h0 : n = 0
    · subst h0
      simp only [bitLenFuel, if_pos rfl]
      exact iff_of_true (Nat.zero_le k) (pow_pos (by norm_num) k)
    · rw [show bitLenFuel (fuel + 1) n = bitLenFuel fuel (n / 2) + 1 by
        simp [bitLenFuel, h0]]
      cases k with
      | zero =>
        constructor
        · intro hh
          exact absurd hh (by omega)
        · intro hlt
          exact absurd hlt (by omega)
      | succ k =>
        have hrec := bitLenFuel_le_iff fuel (n / 2) k (by omega)
        have hp : (2 : Nat) ^ (k + 1) = 2 * 2 ^ k := by ring
        constructor
        · intro hh
          have h1 : n / 2 < 2 ^ k := hrec.mp (by omega)
          omega
        · intro hlt
          have h1 : n / 2 < 2 ^ k := by omega
          have h2 := hrec.mpr h1
          omega

/-- Integers below `2^53` are exactly representable in binary64. -/
theorem roundB64_eq_self {n : Nat} (h : n < 9007199254740992) : roundB64 n = n := by
  have e : (2 : Nat) ^ 53 = 9007199254740992 := by norm_num
  unfold roundB64
  rw [if_pos (show bitLen n ≤ 53 from (bitLenFuel_le_iff n n 53 le_rfl).mpr (by omega))]

/-- C4 counterexample: at timestamp 0 the claimed seconds-branch formula
fails (`timestamp || Date.now()` substitutes the current time), and in the
milliseconds branch the claimed exact `(t·10^6) mod 10^9` formula fails
because the JS double product `time * 1000 * 1000` rounds above `2^53`: at
`t = 1700000000123` the program yields nanoseconds `123000064`, not
`123000000`. -/
theorem c4_claim_counterexample :
    splitTimestamp (some 0) 1700000000000 ≠ (0, 0) ∧
    splitTimestamp (some 0) 1700000000000 = (1700000000, 0) ∧
    splitTimestamp (some 1700000000123) 99
        ≠ (1700000000123 / 1000, (1700000000123 * 1000000) % 1000000000) ∧
    splitTimestamp (some 1700000000123) 99 = (1700000000, 123000064) :=
  ⟨by decide, by decide, by decide, by decide⟩

/-- C4 (amended): for every nonzero numeric timestamp `t` (a zero timestamp
falls back to the current time), a value below `10^12` is interpreted as
seconds (`(t, 0)`); a value at or above it as milliseconds, with
seconds `⌊t/1000⌋` and nanoseconds `(t·10^6) mod 10^9` computed in binary64
arithmetic — the product is rounded to the nearest representable double
after each of the two multiplications; when the first product `t·1000`
stays below `2^53` (every realistic millisecond timestamp) only the second
multiplication rounds. -/
theorem c4_split_timestamp_amended (t now : Nat) (ht : t ≠ 0) :
    (t < 1000000000000 → splitTimestamp (some t) now = (t, 0)) ∧
    (1000000000000 ≤ t →
      splitTimestamp (some t) now
        = (t / 1000, roundB64 (roundB64 (t * 1000) * 1000) % 1000000000)) ∧
    (1000000000000 ≤ t → t * 1000 < 9007199254740992 →
      splitTimestamp (some t) now
        = (t / 1000, roundB64 (t * 1000000) % 1000000000)) := by
  unfold splitTimestamp
  simp only [ht, if_false]
  refine ⟨?_, ?_, ?_⟩
  · intro h
    simp [h]
  · intro h
    have h2 : ¬ t < 1000000000000 := not_lt.mpr h
    simp only [h2, if_false]
  · intro h h53
    have h2 : ¬ t < 1000000000000 := not_lt.mpr h
    simp only [h2, if_false]
    rw [roundB64_eq_self h53]
    have e : t * 1000 * 1000 = t * 1000000 := by ring
    rw [e]

/-- Witness for C4 (amended) at a seconds-range and a milliseconds-range
timestamp; the rounded nanosecond value `123000064` matches the JS double
computation at `t = 1700000000123`. -/
theorem c4_split_timestamp_amended_witness :
    (5 : Nat) ≠ 0 ∧ (5 : Nat) < 1000000000000 ∧ splitTimestamp (some 5) 99 = (5, 0) ∧
    (1700000000123 : Nat) ≠ 0 ∧ (1000000000000 : Nat) ≤ 1700000000123 ∧
    (1700000000123 : Nat) * 1000 < 9007199254740992 ∧
    splitTimestamp (some 1700000000123) 99
        = (1700000000123 / 1000, roundB64 (1700000000123 * 1000000) % 1000000000) ∧
    splitTimestamp (some 1700000000123) 99 = (1700000000, 123000064) := by
  have hm := (c4_split_timestamp_amended 1700000000123 99 (by decide)).2.2
    (by norm_num) (by norm_num)
  refine ⟨by decide, by decide,
    (c4_split_timestamp_amended 5 99 (by decide)).1 (by decide),
    by decide, by norm_num, by norm_num, hm, ?_⟩
  rw [hm]
  decide

/-- C9: at the `putLogs` encoding, a `timestamp` equal to 0 is treated as if
absent (the current time is encoded), and a `timestampNsPart` equal to 0 is
treated as if absent (the nanosecond part derived from the timestamp is
encoded). -/
theorem c9_zero_fields_treated_absent (log : LogEntity) (now : Nat) :
    encodeLogEntity { log with timestamp := some 0 } now
      = encodeLogEntity { log with timestamp := none } now ∧
    encodeLogEntity { log with timestampNsPart := some 0 } now
      = encodeLogEntity { log with timestampNsPart := none } now := by
  constructor
  · unfold encodeLogEntity splitTimestamp
    simp
  · unfold encodeLogEntity
    simp

/-- C3: the canonicalized resource passed to `sign` is the request path; the
query string is appended only for `GET` with queries present, and when
appended the parameters are sorted lexicographically by key and rendered
`key=value` joined by `&`, an `undefined` value rendering as the empty
string (`{b:1,a:2}` yields `"a=2&b=1"`, an `undefined`-valued key yields
`"key="`). -/
theorem c3_canonicalized_resource (o : RequestOptions) (path : String) (q : Queries) :
    (o.method ≠ Method.GET → resourceFor o = o.path) ∧
    (o.queries = none → resourceFor o = o.path) ∧
    (q ≠ [] →
      resourceFor ⟨.GET, path, some q, none, none⟩
        = path ++ "?" ++ String.intercalate "&"
            ((List.insertionSort jsLe (q.map Prod.fst)).map
              (fun key => key ++ "=" ++ formatString (qget q key)))) ∧
    resourceFor ⟨.GET, "/x", some [("b", JSVal.num 1), ("a", JSVal.num 2)], none, none⟩
      = "/x?a=2&b=1" ∧
    resourceFor ⟨.GET, "/p", some [("key", JSVal.undef)], none, none⟩
      = "/p?key=" := by
  refine ⟨?_, ?_, ?_, by decide, by decide⟩
  · intro h
    unfold resourceFor
    rw [if_neg]
    simp [h]
  · intro h
    unfold resourceFor
    rw [if_neg]
    simp [h]
  · intro hq
    have hkeys : ¬ (q.map Prod.fst = []) := by simpa using hq
    unfold resourceFor
    rw [if_pos (by simp)]
    show formatResource path (some q) = _
    simp only [formatResource]
    rw [if_neg hkeys]

/-- Witness for C3, discharging each hypothesis at a concrete input. -/
theorem c3_canonicalized_resource_witness :
    (Method.POST ≠ Method.GET) ∧
    resourceFor ⟨.POST, "/y", some [("a", JSVal.num 1)], none, none⟩ = "/y" ∧
    resourceFor ⟨.GET, "/z", none, none, none⟩ = "/z" ∧
    ([("a", JSVal.num 1)] : Queries) ≠ [] ∧
    resourceFor ⟨.GET, "/w", some [("a", JSVal.num 1)], none, none⟩
      = "/w" ++ "?" ++ String.intercalate "&"
          ((List.insertionSort jsLe (([("a", JSVal.num 1)] : Queries).map Prod.fst)).map
            (fun key => key ++ "=" ++ formatString (qget [("a", JSVal.num 1)] key))) := by
  refine ⟨by decide,
    (c3_canonicalized_resource ⟨.POST, "/y", some [("a", JSVal.num 1)], none, none⟩
      "" []).1 (by decide),
    (c3_canonicalized_resource ⟨.GET, "/z", none, none, none⟩ "" []).2.1 rfl,
    by decide,
    (c3_canonicalized_resource ⟨.GET, "", none, none, none⟩
      "/w" [("a", JSVal.num 1)]).2.2.1 (by decide)⟩

/-- C5: a JSON body with a (truthy) `errorCode`/`errorMessage` pair, or with
an `Error` object, makes the exchange throw a structured error carrying that
message, code and nullable request id (from the `x-log-requestid` response
header in the first shape, from `Error.RequestId` in the second); in
particular `{errorCode:"X", errorMessage:"Y"}` produces code "X" and message
"Y".  Any other JSON body is returned parsed, not thrown. -/
theorem c5_error_mapping (ct : String) (rh : List (String × String)) (body : RespBody)
    (c m : String) (e : ErrorObj) :
    (strStartsWith ct "application/json" = true → body.errorCode = some c →
      body.errorMessage = some m → c ≠ "" → m ≠ "" →
      handleResponse ct rh body
        = .error ⟨m, c, respHeaderGet rh "x-log-requestid"⟩) ∧
    (strStartsWith ct "application/json" = true →
      ¬(truthy body.errorCode = true ∧ truthy body.errorMessage = true) →
      body.Error = some e →
      handleResponse ct rh body = .error ⟨e.Message, e.Code, e.RequestId⟩) ∧
    (strStartsWith ct "application/json" = true →
      ¬(truthy body.errorCode = true ∧ truthy body.errorMessage = true) →
      body.Error = none →
      handleResponse ct rh body = .ok (.parsed body)) ∧
    handleResponse "application/json" []
        { errorCode := some "X", errorMessage := some "Y", Error := none }
      = .error { message := "Y", code := "X", requestid := none } := by
  refine ⟨?_, ?_, ?_, by decide⟩
  · intro h1 h2 h3 h4 h5
    unfold handleResponse
    rw [if_neg (by simp [h1])]
    rw [if_pos (by simp [h2, h3, truthy, h4, h5])]
    simp [h2, h3]
  · intro h1 h2 h3
    unfold handleResponse
    rw [if_neg (by simp [h1])]
    rw [if_neg h2, h3]
  · intro h1 h2 h3
    unfold handleResponse
    rw [if_neg (by simp [h1])]
    rw [if_neg h2, h3]

/-- Witness for C5, discharging each hypothesis at a concrete response. -/
theorem c5_error_mapping_witness :
    (strStartsWith "application/json; charset=utf-8" "application/json" = true) ∧
    handleResponse "application/json; charset=utf-8" [("x-log-requestid", "R1")]
        { errorCode := some "X", errorMessage := some "Y", Error := none }
      = .error ⟨"Y", "X",
          respHeaderGet [("x-log-requestid", "R1")] "x-log-requestid"⟩ ∧
    handleResponse "application/json" []
        { errorCode := none, errorMessage := none,
          Error := some ⟨"msg", "code", some "R2"⟩ }
      = .error ⟨"msg", "code", some "R2"⟩ ∧
    handleResponse "application/json" []
        { errorCode := none, errorMessage := none, Error := none }
      = .ok (.parsed { errorCode := none, errorMessage := none, Error := none }) := by
  refine ⟨by decide,
    (c5_error_mapping "application/json; charset=utf-8" [("x-log-requestid", "R1")]
      { errorCode := some "X", errorMessage := some "Y", Error := none }
      "X" "Y" ⟨"", "", none⟩).1 (by decide) rfl rfl (by decide) (by decide),
    (c5_error_mapping "application/json" []
      { errorCode := none, errorMessage := none, Error := some ⟨"msg", "code", some "R2"⟩ }
      "" "" ⟨"msg", "code", some "R2"⟩).2.1 (by decide) (by decide) rfl,
    (c5_error_mapping "application/json" []
      { errorCode := none, errorMessage := none, Error := none }
      "" "" ⟨"", "", none⟩).2.2.1 (by decide) (by decide) rfl⟩

/-- C2 counterexample: the code sorts the selected header names BEFORE
lowercasing them, so the output differs from the claimed
lowercase-then-sort algorithm, and changing the case of a key can change
the output (uppercase letters sort before lowercase ones). -/
theorem c2_canonicalized_headers_counterexample :
    getCanonicalizedHeaders [("x-log-B", "1"), ("x-log-a", "2")]
        ≠ specCanonicalizedHeaders [("x-log-B", "1"), ("x-log-a", "2")] ∧
    getCanonicalizedHeaders [("x-log-B", "1"), ("x-log-a", "2")]
        ≠ getCanonicalizedHeaders [("x-log-b", "1"), ("x-log-a", "2")] ∧
    getCanonicalizedHeaders [("x-log-B", "1"), ("x-log-a", "2")]
        = "x-log-b:1\nx-log-a:2" ∧
    specCanonicalizedHeaders [("x-log-B", "1"), ("x-log-a", "2")]
        = "x-log-a:2\nx-log-b:1" ∧
    getCanonicalizedHeaders [("x-log-b", "1"), ("x-log-a", "2")]
        = "x-log-a:2\nx-log-b:1" :=
  ⟨by decide, by decide, by decide, by decide, by decide⟩

/-- C2 (amended): the canonicalized-headers string selects exactly the
headers whose lowercased name starts with `x-log-` or `x-acs-`, sorts them
by the ORIGINAL (pre-lowercasing) name, then renders each as
`lowercasedName:trimmedValue` joined by newlines; the output is invariant
under any permutation of the mapping's entries (distinct keys), but not in
general under change of key case. -/
theorem c2_canonicalized_headers_amended (h₁ h₂ : Headers) :
    (getCanonicalizedHeaders h₁ = String.intercalate "\n"
        ((List.insertionSort jsLe ((h₁.map Prod.fst).filter
            (fun key => strStartsWith (lowerStr key) "x-log-" ||
              strStartsWith (lowerStr key) "x-acs-"))).map
          (fun key => lowerStr key ++ ":" ++ trimStr (hget h₁ key)))) ∧
    (h₁.Perm h₂ → (h₁.map Prod.fst).Nodup →
      getCanonicalizedHeaders h₁ = getCanonicalizedHeaders h₂) := by
  constructor
  · simp only [getCanonicalizedHeaders]
    by_cases hk : List.insertionSort jsLe ((h₁.map Prod.fst).filter
        (fun key => strStartsWith (lowerStr key) "x-log-" ||
          strStartsWith (lowerStr key) "x-acs-")) = []
    · rw [if_pos hk, hk]
      rfl
    · rw [if_neg hk]
  · intro pm nd
    have hpk : ((h₁.map Prod.fst).filter
        (fun key => strStartsWith (lowerStr key) "x-log-" ||
          strStartsWith (lowerStr key) "x-acs-")).Perm
        ((h₂.map Prod.fst).filter
        (fun key => strStartsWith (lowerStr key) "x-log-" ||
          strStartsWith (lowerStr key) "x-acs-")) :=
      (pm.map Prod.fst).filter _
    have hsorted : List.insertionSort jsLe ((h₁.map Prod.fst).filter
        (fun key => strStartsWith (lowerStr key) "x-log-" ||
          strStartsWith (lowerStr key) "x-acs-"))
        = List.insertionSort jsLe ((h₂.map Prod.fst).filter
        (fun key => strStartsWith (lowerStr key) "x-log-" ||
          strStartsWith (lowerStr key) "x-acs-")) := by
      exact @List.eq_of_perm_of_sorted String jsLe _ _ _
        (((List.perm_insertionSort jsLe _).trans hpk).trans
          (List.perm_insertionSort jsLe _).symm)
        (List.sorted_insertionSort jsLe _)
        (List.sorted_insertionSort jsLe _)
    have hvals : ∀ key, hget h₁ key = hget h₂ key := by
      intro key
      unfold hget
      rw [find?_key_perm h₁ h₂ pm nd key]
    simp only [getCanonicalizedHeaders, hsorted, hvals]

/-- Witness for C2 (amended): permutation invariance at a concrete header
mapping. -/
theorem c2_canonicalized_headers_amended_witness :
    ([("x-log-a", " 1 "), ("x-acs-b", "2"), ("other", "3")] : Headers).Perm
        [("other", "3"), ("x-acs-b", "2"), ("x-log-a", " 1 ")] ∧
    (([("x-log-a", " 1 "), ("x-acs-b", "2"), ("other", "3")] : Headers).map
        Prod.fst).Nodup ∧
    getCanonicalizedHeaders [("x-log-a", " 1 "), ("x-acs-b", "2"), ("other", "3")]
      = getCanonicalizedHeaders [("other", "3"), ("x-acs-b", "2"), ("x-log-a", " 1 ")] :=
  ⟨by decide, by decide,
    (c2_canonicalized_headers_amended _ _).2 (by decide) (by decide)⟩

/-- A key that is none of the keys `Request.do` writes (`authorization`,
`content-md5`, `content-length`, `x-acs-security-token`) and that the caller
does not supply keeps its value from the default headers. -/
theorem hfind_doBuildHeaders_default (config : RequestConfig) (now : String)
    (options : RequestOptions) (k : String)
    (h1 : k ≠ "authorization") (h2 : k ≠ "content-md5") (h3 : k ≠ "content-length")
    (h4 : k ≠ "x-acs-security-token")
    (h5 : ∀ q ∈ options.headers.getD [], ¬ q.1 = k) :
    hfind (doBuildHeaders config now options) k = hfind (defaultHeaders now) k := by
  simp only [doBuildHeaders]
  rw [hfind_hset_ne _ _ _ _ h1]
  simp only [signTimeHeaders]
  rcases hb : options.body with _ | b <;> simp only [hb]
  · by_cases hts : truthy config.stsToken = true
    · rw [if_pos hts, hfind_hset_ne _ _ _ _ h4, hfind_assign_of_not_mem _ _ _ h5]
    · rw [if_neg hts, hfind_assign_of_not_mem _ _ _ h5]
  · rw [hfind_hset_ne _ _ _ _ h2, hfind_hset_ne _ _ _ _ h3]
    by_cases hts : truthy config.stsToken = true
    · rw [if_pos hts, hfind_hset_ne _ _ _ _ h4, hfind_assign_of_not_mem _ _ _ h5]
    · rw [if_neg hts, hfind_assign_of_not_mem _ _ _ h5]

/-- With no body, a key other than `authorization` and
`x-acs-security-token` that the caller does not supply keeps its value from
the default headers. -/
theorem hfind_doBuildHeaders_nobody (config : RequestConfig) (now : String)
    (options : RequestOptions) (k : String)
    (h1 : k ≠ "authorization") (h4 : k ≠ "x-acs-security-token")
    (hb : options.body = none)
    (h5 : ∀ q ∈ options.headers.getD [], ¬ q.1 = k) :
    hfind (doBuildHeaders config now options) k = hfind (defaultHeaders now) k := by
  simp only [doBuildHeaders]
  rw [hfind_hset_ne _ _ _ _ h1]
  simp only [signTimeHeaders, hb]
  by_cases hts : truthy config.stsToken = true
  · rw [if_pos hts, hfind_hset_ne _ _ _ _ h4, hfind_assign_of_not_mem _ _ _ h5]
  · rw [if_neg hts, hfind_assign_of_not_mem _ _ _ h5]

/-- The `x-acs-security-token` header of a built request is present with the
configured token exactly when the session token is configured (truthy),
provided the caller does not supply that key itself (no call site does). -/
theorem hfind_doBuildHeaders_token (config : RequestConfig) (now : String)
    (options : RequestOptions)
    (h5 : ∀ q ∈ options.headers.getD [], ¬ q.1 = "x-acs-security-token") :
    hfind (doBuildHeaders config now options) "x-acs-security-token"
      = if truthy config.stsToken then some (config.stsToken.getD "") else none := by
  simp only [doBuildHeaders]
  rw [hfind_hset_ne _ _ _ _ (by decide)]
  simp only [signTimeHeaders]
  rcases hb : options.body with _ | b <;> simp only [hb]
  · by_cases hts : truthy config.stsToken = true
    · rw [if_pos hts, if_pos hts, hfind_hset_self]
    · rw [if_neg hts, if_neg hts, hfind_assign_of_not_mem _ _ _ h5]
      simp [hfind, defaultHeaders]
  · rw [hfind_hset_ne _ _ _ _ (by decide), hfind_hset_ne _ _ _ _ (by decide)]
    by_cases hts : truthy config.stsToken = true
    · rw [if_pos hts, if_pos hts, hfind_hset_self]
    · rw [if_neg hts, if_neg hts, hfind_assign_of_not_mem _ _ _ h5]
      simp [hfind, defaultHeaders]

/-- C6: with a binary body present, the outgoing headers carry `content-md5`
set to the uppercase hex MD5 digest of the body and `content-length` set to
its byte length; with no body (and the caller-supplied headers not
themselves containing these keys, which holds at every call site) neither
header is present. -/
theorem c6_body_integrity_headers (config : RequestConfig) (now : String)
    (options : RequestOptions) (b : List Nat) :
    (options.body = some b →
      hfind (doBuildHeaders config now options) "content-md5"
          = some (hexUpper (md5 b)) ∧
      hfind (doBuildHeaders config now options) "content-length"
          = some (toString b.length)) ∧
    (options.body = none →
      (∀ q ∈ options.headers.getD [], ¬ q.1 = "content-md5") →
      (∀ q ∈ options.headers.getD [], ¬ q.1 = "content-length") →
      hfind (doBuildHeaders config now options) "content-md5" = none ∧
      hfind (doBuildHeaders config now options) "content-length" = none) := by
  constructor
  · intro hb
    constructor
    · simp only [doBuildHeaders]
      rw [hfind_hset_ne _ _ _ _ (by decide)]
      simp only [signTimeHeaders, hb]
      rw [hfind_hset_self]
    · simp only [doBuildHeaders]
      rw [hfind_hset_ne _ _ _ _ (by decide)]
      simp only [signTimeHeaders, hb]
      rw [hfind_hset_ne _ _ _ _ (by decide), hfind_hset_self]
  · intro hb hmd5 hlen
    constructor
    · rw [hfind_doBuildHeaders_nobody config now options "content-md5"
        (by decide) (by decide) hb hmd5]
      simp [hfind, defaultHeaders]
    · rw [hfind_doBuildHeaders_nobody config now options "content-length"
        (by decide) (by decide) hb hlen]
      simp [hfind, defaultHeaders]

/-- Witness for C6 at the two public call sites: `putLogs` (body present)
and `getLogs` (no body). -/
theorem c6_body_integrity_headers_witness :
    (putLogsOptions "store" [97]).body = some [97] ∧
    hfind (doBuildHeaders ⟨"ep", "id", "sec", none, none⟩ "NOW"
        (putLogsOptions "store" [97])) "content-md5" = some (hexUpper (md5 [97])) ∧
    hfind (doBuildHeaders ⟨"ep", "id", "sec", none, none⟩ "NOW"
        (putLogsOptions "store" [97])) "content-length"
      = some (toString ([97] : List Nat).length) ∧
    (getLogsOptions "store" []).body = none ∧
    hfind (doBuildHeaders ⟨"ep", "id", "sec", none, none⟩ "NOW"
        (getLogsOptions "store" [])) "content-md5" = none ∧
    hfind (doBuildHeaders ⟨"ep", "id", "sec", none, none⟩ "NOW"
        (getLogsOptions "store" [])) "content-length" = none := by
  have h1 := (c6_body_integrity_headers ⟨"ep", "id", "sec", none, none⟩ "NOW"
    (putLogsOptions "store" [97]) [97]).1 rfl
  have h2 := (c6_body_integrity_headers ⟨"ep", "id", "sec", none, none⟩ "NOW"
    (getLogsOptions "store" []) []).2 rfl (by decide) (by decide)
  exact ⟨rfl, h1.1, h1.2, rfl, h2.1, h2.2⟩

/-- C7: every request built by the exchange carries a `date` header, the
fixed `x-log-apiversion: 0.6.0` and `x-log-signaturemethod: hmac-sha1`
headers, an `authorization` header whose signature is computed over exactly
the headers present at sign time, and the `x-acs-security-token` header if
and only if a session token is configured — given that the caller-supplied
headers do not themselves use these reserved keys (no call site does). -/
theorem c7_outgoing_request_invariant (config : RequestConfig) (now : String)
    (options : RequestOptions)
    (hres : ∀ q ∈ options.headers.getD [],
      ¬ q.1 = "date" ∧ ¬ q.1 = "x-log-apiversion" ∧
      ¬ q.1 = "x-log-signaturemethod" ∧ ¬ q.1 = "x-acs-security-token") :
    hfind (doBuildHeaders config now options) "date" = some now ∧
    hfind (doBuildHeaders config now options) "x-log-apiversion" = some "0.6.0" ∧
    hfind (doBuildHeaders config now options) "x-log-signaturemethod"
        = some "hmac-sha1" ∧
    hfind (doBuildHeaders config now options) "authorization"
        = some (sign config options.method.toStr (resourceFor options)
            (signTimeHeaders config now options)) ∧
    hfind (doBuildHeaders config now options) "x-acs-security-token"
        = (if truthy config.stsToken then some (config.stsToken.getD "") else none) := by
  refine ⟨?_, ?_, ?_, ?_, ?_⟩
  · rw [hfind_doBuildHeaders_default config now options "date" (by decide) (by decide)
      (by decide) (by decide) (fun q hq => (hres q hq).1)]
    simp [hfind, defaultHeaders]
  · rw [hfind_doBuildHeaders_default config now options "x-log-apiversion" (by decide)
      (by decide) (by decide) (by decide) (fun q hq => (hres q hq).2.1)]
    simp [hfind, defaultHeaders]
  · rw [hfind_doBuildHeaders_default config now options "x-log-signaturemethod"
      (by decide) (by decide) (by decide) (by decide) (fun q hq => (hres q hq).2.2.1)]
    simp [hfind, defaultHeaders]
  · simp only [doBuildHeaders]
    rw [hfind_hset_self]
  · exact hfind_doBuildHeaders_token config now options (fun q hq => (hres q hq).2.2.2)

/-- Witness for C7 at the `putLogs` call site with a configured session
token. -/
theorem c7_outgoing_request_invariant_witness :
    (∀ q ∈ (putLogsOptions "store" [97]).headers.getD [],
      ¬ q.1 = "date" ∧ ¬ q.1 = "x-log-apiversion" ∧
      ¬ q.1 = "x-log-signaturemethod" ∧ ¬ q.1 = "x-acs-security-token") ∧
    hfind (doBuildHeaders ⟨"ep", "id", "sec", some "tok", none⟩ "NOW"
        (putLogsOptions "store" [97])) "date" = some "NOW" ∧
    hfind (doBuildHeaders ⟨"ep", "id", "sec", some "tok", none⟩ "NOW"
        (putLogsOptions "store" [97])) "x-log-apiversion" = some "0.6.0" ∧
    hfind (doBuildHeaders ⟨"ep", "id", "sec", some "tok", none⟩ "NOW"
        (putLogsOptions "store" [97])) "x-log-signaturemethod" = some "hmac-sha1" ∧
    hfind (doBuildHeaders ⟨"ep", "id", "sec", some "tok", none⟩ "NOW"
        (putLogsOptions "store" [97])) "authorization"
      = some (sign ⟨"ep", "id", "sec", some "tok", none⟩
          (putLogsOptions "store" [97]).method.toStr
          (resourceFor (putLogsOptions "store" [97]))
          (signTimeHeaders ⟨"ep", "id", "sec", some "tok", none⟩ "NOW"
            (putLogsOptions "store" [97]))) ∧
    hfind (doBuildHeaders ⟨"ep", "id", "sec", some "tok", none⟩ "NOW"
        (putLogsOptions "store" [97])) "x-acs-security-token" = some "tok" := by
  have h := c7_outgoing_request_invariant ⟨"ep", "id", "sec", some "tok", none⟩ "NOW"
    (putLogsOptions "store" [97]) (by decide)
  refine ⟨by decide, h.1, h.2.1, h.2.2.1, h.2.2.2.1, ?_⟩
  rw [h.2.2.2.2]
  rfl

/-- C10: `updateCredential` overwrites exactly the three credential fields,
leaves the endpoint and global request options unchanged, and an omitted
`stsToken` argument clears the session token, so subsequent requests carry
no `x-acs-security-token` header. -/
theorem c10_update_credential_frame (config : RequestConfig) (id secret : String)
    (sts : Option String) :
    (updateCredential config id secret sts).endpoint = config.endpoint ∧
    (updateCredential config id secret sts).globalRequestOptions
        = config.globalRequestOptions ∧
    (updateCredential config id secret sts).accessKeyID = id ∧
    (updateCredential config id secret sts).accessKeySecret = secret ∧
    (updateCredential config id secret sts).stsToken = sts ∧
    (∀ now options,
      (∀ q ∈ options.headers.getD [], ¬ q.1 = "x-acs-security-token") →
      hfind (doBuildHeaders (updateCredential config id secret none) now options)
          "x-acs-security-token" = none) := by
  refine ⟨rfl, rfl, rfl, rfl, rfl, ?_⟩
  intro now options h5
  rw [hfind_doBuildHeaders_token _ _ _ h5]
  rfl

/-- Witness for C10: updating credentials on a client with a configured
token, omitting the token, clears it. -/
theorem c10_update_credential_frame_witness :
    (updateCredential ⟨"ep", "oid", "osec", some "tok", none⟩ "nid" "nsec" none).endpoint
        = "ep" ∧
    (updateCredential ⟨"ep", "oid", "osec", some "tok", none⟩ "nid" "nsec" none).stsToken
        = none ∧
    (∀ q ∈ (getLogsOptions "store" []).headers.getD [],
      ¬ q.1 = "x-acs-security-token") ∧
    hfind (doBuildHeaders (updateCredential ⟨"ep", "oid", "osec", some "tok", none⟩
        "nid" "nsec" none) "NOW" (getLogsOptions "store" []))
      "x-acs-security-token" = none := by
  have h := c10_update_credential_frame ⟨"ep", "oid", "osec", some "tok", none⟩
    "nid" "nsec" none
  exact ⟨h.1, h.2.2.2.2.1, by decide,
    h.2.2.2.2.2 "NOW" (getLogsOptions "store" []) (by decide)⟩

end SLS
